import Mathlib

/-!
Verification development for the 7dmt modlet packaging tool.

Shallow embedding of the instruction-language parser (src/modlet_xml.rs,
`load_xml` and its helpers), the instruction writer
(src/modlet_xml/command.rs, `Command::write`), and the packaging pipeline
(src/dmt/commands/package.rs `run`/`package`/`file_map`, src/lib.rs
`Modlet`).

Modelling conventions:
* XML is modelled at the quick_xml event level (`XmlEvent`); byte-level
  concerns (escaping, exact attribute spacing) are abstracted: `rawOf`
  renders the canonical text a `BytesStart`/`BytesEmpty` exposes via
  `as_ref()` (name followed by space-separated `key="value"` pairs).
* `reader.trim_text(true)` is folded into the text case of the parser
  step: text is trimmed, and whitespace-only text events are suppressed,
  exactly as the reader would.
* Rust `panic!`/`unwrap()` terminations are modelled as `Except.error`
  carrying a `Panic`.  The event loop of `load_xml` has no non-panic
  failure path, which the single-constructor `Panic` type records.
* Machine integers do not occur on these paths; strings are compared as
  their scalar sequences (UTF-8 byte order and scalar order agree).
-/

namespace SevenDMT

/-- Characters removed by Rust `str::trim` on the ASCII subset actually
occurring in instruction documents. -/
def isWs (c : Char) : Bool := c = ' ' || c = '\t' || c = '\n' || c = '\r'

/-- Model of Rust `str::trim`. -/
def rustTrim (s : String) : String :=
  ⟨((s.data.dropWhile isWs).reverse.dropWhile isWs).reverse⟩

/-- Model of `to_ascii_lowercase` (Lean `Char.toLower` lowercases exactly
the ASCII uppercase letters). -/
def strLower (s : String) : String := ⟨s.data.map Char.toLower⟩

/-- Model of convert_case `to_case(Case::Flat)` as used by
`Command::from_str` in src/modlet_xml/command.rs: the default boundaries
split words at `_`, `-`, space and letter-case changes, and `Flat`
lowercases the words and joins them with no delimiter; the composite
therefore removes the three delimiter characters and lowercases the
rest. -/
def toFlat (s : String) : String :=
  ⟨(s.data.filter (fun c => !(c = '_' || c = '-' || c = ' '))).map Char.toLower⟩

/-- Attribute list of a start/empty tag, in document order. -/
abbrev Attrs := List (String × String)

/-- Model of `get_attribute` (src/modlet_xml.rs lines 299-308): value of
the first attribute with the given key. -/
def getAttribute (e : Attrs) (attr : String) : Option String :=
  (e.find? (fun a => a.1 == attr)).map (·.2)

/-- Canonical text of the inside of a start/empty tag, as
`BytesStart::as_ref()` exposes it (tag name, then the attributes; the
trailing `/` of an empty tag is not included). -/
def rawOf (name : String) (attrs : Attrs) : String :=
  name ++ (attrs.map (fun a => " " ++ a.1 ++ "=\"" ++ a.2 ++ "\"")).foldl (· ++ ·) ""

/-- Events of the quick_xml reader/writer relevant to `load_xml`.
`raw` stands for a replayed opaque markup fragment (see
`Command.write`); the parser's catch-all arm panics on it just as the
source panics on any event kind it does not handle. -/
inductive XmlEvent where
  | comment (s : String)
  | start (name : String) (attrs : Attrs)
  | empty (name : String) (attrs : Attrs)
  | text (s : String)
  | endTag (name : String)
  | raw (s : String)
deriving DecidableEq

/-- A Rust `panic!`/`unwrap` termination.  This is the only failure mode
of the embedded event loop: src/modlet_xml.rs defines no typed parse
error and panics on every unexpected construct. -/
inductive Panic where
  | panic (msg : String)
deriving DecidableEq

/-- `CsvInstruction` (src/modlet_xml.rs lines 21-25). -/
inductive CsvInstruction where
  | add (delim : Char)
  | remove (delim : Char)
deriving DecidableEq

/-- `CsvInstruction::delim` (src/modlet_xml/command.rs lines 24-29). -/
def CsvInstruction.delim : CsvInstruction → Char
  | .add d => d
  | .remove d => d

/-- `CsvInstruction::op` (src/modlet_xml/command.rs lines 31-36). -/
def CsvInstruction.opStr : CsvInstruction → String
  | .add _ => "add"
  | .remove _ => "remove"

/-- `InstructionSet` (src/modlet_xml.rs lines 27-33); the source field
`attribute` is a Lean keyword and is embedded as `attr`.  The writer
snapshot (src/modlet_xml/command.rs lines 39-45) keeps `values` as
captured quick_xml `Event`s and `xpath` as a plain byte vector; here the
parser snapshot's representation (strings, optional xpath) is used and
the writer reads `xpath` through `getD ""` (an absent xpath is the empty
byte vector there). -/
structure InstructionSet where
  attr : Option String := none
  values : List String := []
  csv_op : Option CsvInstruction := none
  xpath : Option String := none
deriving DecidableEq

/-- `InstructionSet::new` = `Default::default()`. -/
def InstructionSet.new : InstructionSet := {}

instance : Inhabited InstructionSet := ⟨InstructionSet.new⟩

/-- `Command` (src/modlet_xml.rs lines 49-63), with the source's variant
names. -/
inductive Command where
  | Append (is : InstructionSet)
  | Comment (s : String)
  | Csv (is : InstructionSet)
  | InsertAfter (is : InstructionSet)
  | InsertBefore (is : InstructionSet)
  | NoOp
  | Remove (is : InstructionSet)
  | RemoveAttribute (is : InstructionSet)
  | Set (is : InstructionSet)
  | SetAttribute (is : InstructionSet)
  | StartTag (name : Option String)
  | Unknown
deriving DecidableEq

/-- `COLLECTION_COMMANDS` (src/modlet_xml.rs line 42). -/
def COLLECTION_COMMANDS : List String := ["append", "insert_after", "insert_before"]

/-- `TEXT_COMMANDS` (src/modlet_xml.rs line 44). -/
def TEXT_COMMANDS : List String := ["csv", "set", "set_attribute"]

/-- `EMPTY_COMMANDS` (src/modlet_xml.rs line 46). -/
def EMPTY_COMMANDS : List String := ["remove", "remove_attribute"]

/-- `AsRef<str> for Command` (src/modlet_xml.rs lines 65-82). -/
def Command.asRef : Command → String
  | .Append _ => "append"
  | .Comment _ => "comment"
  | .Csv _ => "csv"
  | .InsertAfter _ => "insert_after"
  | .InsertBefore _ => "insert_before"
  | .NoOp => "no_op"
  | .Remove _ => "remove"
  | .RemoveAttribute _ => "remove_attribute"
  | .Set _ => "set"
  | .SetAttribute _ => "set_attribute"
  | .StartTag _ => "start_tag"
  | .Unknown => "unknown"

/-- `Command::from_str` of the parser snapshot (src/modlet_xml.rs lines
104-119): exact byte match on the snake_case names. -/
def Command.fromStr (cmd : String) : Command :=
  if cmd = "append" then .Append .new
  else if cmd = "comment" then .Comment ""
  else if cmd = "csv" then .Csv .new
  else if cmd = "insert_after" then .InsertAfter .new
  else if cmd = "insert_before" then .InsertBefore .new
  else if cmd = "no_op" then .NoOp
  else if cmd = "remove" then .Remove .new
  else if cmd = "remove_attribute" then .RemoveAttribute .new
  else if cmd = "set" then .Set .new
  else if cmd = "set_attribute" then .SetAttribute .new
  else if cmd = "start_tag" then .StartTag none
  else .Unknown

/-- Lookup on the flat-cased name, the `match match_string.as_str()` of
src/modlet_xml/command.rs lines 84-97. -/
def Command.ofFlat (matchString : String) : Command :=
  if matchString = "append" then .Append .new
  else if matchString = "comment" then .Comment ""
  else if matchString = "csv" then .Csv .new
  else if matchString = "insertafter" then .InsertAfter .new
  else if matchString = "insertbefore" then .InsertBefore .new
  else if matchString = "noop" then .NoOp
  else if matchString = "remove" then .Remove .new
  else if matchString = "removeattribute" then .RemoveAttribute .new
  else if matchString = "set" then .Set .new
  else if matchString = "setattribute" then .SetAttribute .new
  else if matchString = "starttag" then .StartTag none
  else .Unknown

/-- `Command::from_str` of the writer snapshot (src/modlet_xml/command.rs
lines 82-98): flat-case the input, then match. -/
def Command.fromStrFlat (inputStr : String) : Command :=
  Command.ofFlat (toFlat inputStr)

/-- `Command::set` (src/modlet_xml.rs lines 121-136); the Comment arm
joins the values with the empty separator. -/
def Command.set (c : Command) (instructionSet : InstructionSet) : Command :=
  match c with
  | .Append _ => .Append instructionSet
  | .Comment _ => .Comment (instructionSet.values.foldl (· ++ ·) "")
  | .Csv _ => .Csv instructionSet
  | .InsertAfter _ => .InsertAfter instructionSet
  | .InsertBefore _ => .InsertBefore instructionSet
  | .NoOp => .NoOp
  | .Remove _ => .Remove instructionSet
  | .RemoveAttribute _ => .RemoveAttribute instructionSet
  | .Set _ => .Set instructionSet
  | .SetAttribute _ => .SetAttribute instructionSet
  | .StartTag _ => .StartTag none
  | .Unknown => .Unknown

/-- The mutable state of the `load_xml` loop (src/modlet_xml.rs lines
172-181): the emitted commands, the command stack, the `InstructionSet`
under construction, and the remembered wrapper tag name. -/
structure ParserState where
  commands : List Command
  stack : List Command
  modlet : InstructionSet
  startTag : String
deriving DecidableEq

/-- `stack.get(0).unwrap_or(&Command::NoOp).as_ref()` (src/modlet_xml.rs
line 183). -/
def lastCommand (st : ParserState) : String :=
  (st.stack.head?.getD Command.NoOp).asRef

/-- One iteration of the `load_xml` event loop (src/modlet_xml.rs lines
182-294), one arm per event kind.  `Except.error` is a panic. -/
def step (st : ParserState) : XmlEvent → Except Panic ParserState
  | .comment s =>
    let comment := rustTrim s
    if comment = "" then .ok st
    else .ok { st with commands := st.commands ++ [.Comment comment] }
  | .start tagName attrs =>
    let last := lastCommand st
    let command := Command.fromStr tagName
    let wrapper := st.startTag = "" ∧ command.asRef = "unknown" ∧ last = "no_op"
    let startTag' := if wrapper then tagName else st.startTag
    let command := if wrapper then Command.StartTag (some tagName) else command
    if last ∈ COLLECTION_COMMANDS then
      .ok { st with startTag := startTag',
                    modlet := { st.modlet with values := st.modlet.values ++ [rawOf tagName attrs] } }
    else if command.asRef ≠ "unknown" ∧ command.asRef ≠ "no_op" then
      if command.asRef = "start_tag" then .ok { st with startTag := startTag' }
      else
        match ((getAttribute attrs "delim").getD ",").data with
        | [] => .error (.panic "called Option::unwrap() on a None value: empty delim attribute")
        | delim :: _ =>
          .ok { st with startTag := startTag',
                        modlet := { st.modlet with
                          xpath := getAttribute attrs "xpath",
                          csv_op := match getAttribute attrs "op" with
                            | some op =>
                              if op = "add" then some (.add delim)
                              else if op = "remove" then some (.remove delim)
                              else none
                            | none => none },
                        stack := st.stack ++ [command] }
    else .ok { st with startTag := startTag' }
  | .empty tagName attrs =>
    let value := rawOf tagName attrs
    if tagName ∈ EMPTY_COMMANDS ∨ lastCommand st ∈ COLLECTION_COMMANDS then
      .ok { st with modlet := { st.modlet with values := st.modlet.values ++ [value] } }
    else .error (.panic ("Unhandled empty tag received: " ++ value))
  | .text s =>
    let value := rustTrim s
    if value = "" then .ok st
    else if lastCommand st ∈ TEXT_COMMANDS then
      .ok { st with modlet := { st.modlet with values := st.modlet.values ++ [value] } }
    else .error (.panic ("Unhandled text tag received: " ++ value))
  | .endTag tag =>
    let last := lastCommand st
    let command := Command.fromStr tag
    let command :=
      if command.asRef = "unknown" ∧ st.startTag ≠ "" then Command.StartTag (some st.startTag)
      else command
    if last ∈ COLLECTION_COMMANDS ∧ command.asRef ≠ last then
      .ok { st with modlet := { st.modlet with values := st.modlet.values ++ [tag] } }
    else
      .ok { st with commands := st.commands ++ [command.set st.modlet],
                    stack := [], modlet := .new }
  | .raw s => .error (.panic ("[UNKNOWN] event: " ++ s))

/-- Initial loop state of `load_xml`. -/
def initState : ParserState := ⟨[], [], .new, ""⟩

/-- Folding the event loop over a list of reader events. -/
def processList (st : ParserState) (events : List XmlEvent) : Except Panic ParserState :=
  events.foldlM step st

/-- `load_xml` (src/modlet_xml.rs lines 172-297) over the reader's event
stream: run the loop from the initial state and return the accumulated
commands at `Eof`. -/
def loadXml (events : List XmlEvent) : Except Panic (List Command) :=
  (processList initState events).map (·.commands)

/-- `Vec::join(",")` on the payload values, as
`values_to_strings().join(",")` produces it. -/
def joinComma : List String → String
  | [] => ""
  | [v] => v
  | v :: rest => v ++ "," ++ joinComma rest

/-- `Command::write` (src/modlet_xml/command.rs lines 117-173) at the
event level.  The collection arms replay the captured payload with
`write_event`; with the parser snapshot's string payloads that replay is
modelled as one opaque `XmlEvent.raw` per stored value.  Element names
come from the `Display` impl (lines 195-212), which camel-cases
`insertAfter`, `insertBefore`, `removeAttribute` and `setAttribute`.
The `unwrap()`s on `csv_op` and `attribute` are panics. -/
def Command.write : Command → Except Panic (List XmlEvent)
  | .Append is =>
    .ok ([.start "append" [("xpath", is.xpath.getD "")]]
      ++ is.values.map XmlEvent.raw ++ [.endTag "append"])
  | .InsertAfter is =>
    .ok ([.start "insertAfter" [("xpath", is.xpath.getD "")]]
      ++ is.values.map XmlEvent.raw ++ [.endTag "insertAfter"])
  | .InsertBefore is =>
    .ok ([.start "insertBefore" [("xpath", is.xpath.getD "")]]
      ++ is.values.map XmlEvent.raw ++ [.endTag "insertBefore"])
  | .Comment s => .ok [.comment s]
  | .Csv is =>
    match is.csv_op with
    | none => .error (.panic "called Option::unwrap() on a None value: Csv csv_op")
    | some op =>
      .ok [.start "csv" [("xpath", is.xpath.getD ""), ("delim", ⟨[op.delim]⟩), ("op", op.opStr)],
           .text (joinComma is.values), .endTag "csv"]
  | .Remove is => .ok [.empty "remove" [("xpath", is.xpath.getD "")]]
  | .RemoveAttribute is => .ok [.empty "removeAttribute" [("xpath", is.xpath.getD "")]]
  | .Set is =>
    .ok [.start "set" [("xpath", is.xpath.getD "")],
         .text (joinComma is.values), .endTag "set"]
  | .SetAttribute is =>
    match is.attr with
    | none => .error (.panic "called Option::unwrap() on a None value: SetAttribute name")
    | some a =>
      .ok [.start "setAttribute" [("xpath", is.xpath.getD ""), ("name", a)],
           .text (joinComma is.values), .endTag "setAttribute"]
  | .StartTag _ => .ok []
  | .NoOp => .ok []
  | .Unknown => .ok []

/-- Sequential serialization of a command list, stopping at the first
panic, as `try_for_each` does. -/
def writeAll (commands : List Command) : Except Panic (List XmlEvent) :=
  commands.foldlM (fun acc c => c.write.map (acc ++ ·)) []

/-- Drop the wrapper (`StartTag`) commands of a parsed sequence; the
round-trip property is stated up to this filtering. -/
def dropWrappers (commands : List Command) : List Command :=
  commands.filter (fun c => match c with | .StartTag _ => false | _ => true)

/-- Paths are modelled as component lists (`PathBuf` components). -/
abbrev RPath := List String

/-- `ModletXML` (src/modlet_xml.rs lines 139-143). -/
structure ModletXML where
  commands : List Command
  path : RPath
deriving DecidableEq

/-- `ModletXML::filename` (src/modlet_xml.rs lines 162-169):
`path.file_name()`, i.e. the final path component, with `""` as the
default. -/
def ModletXML.filename (x : ModletXML) : String :=
  x.path.getLast?.getD ""

/-- Modelled from the spec: the `ModletXML::write` invoked by
`Modlet::write_xmls` (src/lib.rs line 92) is absent from the provided
sources; per spec §4.2/§4.4 it is the verbatim replay of the file's
Command sequence through the instruction writer, in order. -/
def ModletXML.write (x : ModletXML) : Except Panic (List XmlEvent) :=
  writeAll x.commands

/-- `Modlet` (src/lib.rs lines 17-23); the metadata collaborator is out
of scope and not represented.  `files` holds the passthrough file paths
(`None` is the empty list). -/
structure Modlet where
  path : RPath
  xmls : List ModletXML
  files : List RPath
deriving DecidableEq

/-- `Modlet::name` (src/lib.rs lines 83-85): final path component. -/
def Modlet.name (m : Modlet) : String :=
  m.path.getLast?.getD ""

/-- `Modlet::xml_files` (src/lib.rs lines 74-80). -/
def Modlet.xmlFiles (m : Modlet) : List String :=
  m.xmls.map ModletXML.filename

/-- `Modlet::write_xmls` (src/lib.rs lines 88-95): replay every owned
instruction file whose `filename()` equals the requested one. -/
def Modlet.writeXmls (m : Modlet) (filename : String) : Except Panic (List XmlEvent) :=
  (m.xmls.filter (fun x => x.filename == filename)).foldlM
    (fun acc x => x.write.map (acc ++ ·)) []

/-- The file system as a partial map from paths to file contents. -/
abbrev FS := RPath → Option String

/-- Point update of the file-system map. -/
def updateFS (fs : FS) (p : RPath) (c : String) : FS :=
  fun q => if q = p then some c else fs q

/-- `Path::strip_prefix`: remove a leading component sequence. -/
def stripRoot : RPath → RPath → Option RPath
  | [], p => some p
  | _ :: _, [] => none
  | r :: rs, q :: qs => if q = r then stripRoot rs qs else none

/-- Split a character list at every newline. -/
def splitNl : List Char → List (List Char)
  | [] => [[]]
  | c :: rest =>
    match splitNl rest with
    | [] => [[c]]
    | h :: t => if c = '\n' then [] :: h :: t else (c :: h) :: t

/-- Drop one trailing carriage return, as `BufRead::lines` does. -/
def dropCr (l : List Char) : List Char :=
  if l.getLast? = some '\r' then l.dropLast else l

/-- Model of Rust `BufRead::lines` on a whole file content: split at
`\n`, drop the final empty chunk a trailing newline leaves, strip one
trailing `\r` per line. -/
def rustLines (s : String) : List String :=
  match s.data with
  | [] => []
  | c :: cs =>
    let parts := splitNl (c :: cs)
    let parts := if (c :: cs).getLast? = some '\n' then parts.dropLast else parts
    parts.map (fun l => ⟨dropCr l⟩)

/-- Text appended for a duplicate localization file: every line after
the header, each terminated with CRLF (src/lib.rs lines 115-118). -/
def localizationTail (c : String) : String :=
  ((rustLines c).drop 1).foldl (fun acc line => acc ++ line ++ "\r\n") ""

/-- One iteration of the `Modlet::write_files` loop (src/lib.rs lines
100-120): copy to an absent destination; for an existing destination
whose file name lowercases to `localization.txt`, append the incoming
content minus its header line with CRLF endings; leave any other
existing destination unchanged. -/
def writeFileStep (mpath destination : RPath) (fs : FS) (file : RPath) : Except String FS :=
  match stripRoot mpath file with
  | none => .error "called Result::unwrap() on an Err value: StripPrefixError"
  | some rel =>
    let src := mpath ++ rel
    let dst := destination ++ rel
    match fs dst with
    | none =>
      match fs src with
      | none => .error "fs::copy: cannot read source file"
      | some c => .ok (updateFS fs dst c)
    | some existing =>
      if strLower (src.getLast?.getD "") = "localization.txt" then
        match fs src with
        | none => .error "File::open: cannot read source file"
        | some c => .ok (updateFS fs dst (existing ++ localizationTail c))
      else .ok fs

/-- `Modlet::write_files` (src/lib.rs lines 98-124). -/
def Modlet.writeFiles (m : Modlet) (destination : RPath) (fs : FS) : Except String FS :=
  m.files.foldlM (writeFileStep m.path destination) fs

/-- `package` (src/dmt/commands/package.rs lines 39-79): a `bundle` root
element; per contributing modlet a provenance comment followed by that
modlet's replayed instructions for the file; the closing root element.
A panic while replaying is propagated (the real code leaves the partial
file and reports the failure for this one file). -/
def package (file : String) (modlets : List Modlet) : Except Panic (List XmlEvent) := do
  let body ← modlets.foldlM
    (fun acc m => (m.writeXmls file).map
      (fun evs => acc ++ (XmlEvent.comment (" Included from " ++ m.name ++ " ") :: evs))) []
  .ok ([XmlEvent.start "bundle" []] ++ body ++ [XmlEvent.endTag "bundle"])

/-- Insertion into the key-sorted association list that models
`BTreeMap<PathBuf, Vec<&Modlet>>`: a present key pushes the modlet at
the end of its vector, an absent key is inserted at its ordered
position.  Keys (strings) are ordered as their scalar sequences, which
agrees with the UTF-8 byte order Rust uses for `PathBuf`. -/
def insertContrib (k : String) (m : Modlet) :
    List (String × List Modlet) → List (String × List Modlet)
  | [] => [(k, [m])]
  | e :: rest =>
    if e.1 = k then (e.1, e.2 ++ [m]) :: rest
    else if k.data < e.1.data then (k, [m]) :: e :: rest
    else e :: insertContrib k m rest

/-- `file_map` (src/dmt/commands/package.rs lines 81-95): for every
modlet, for every instruction-file name, record the modlet under that
name. -/
def fileMap (modlets : List Modlet) : List (String × List Modlet) :=
  modlets.foldl (fun acc m => m.xmlFiles.foldl (fun acc2 f => insertContrib f m acc2) acc) []

/-- Lookup in the file-contribution map. -/
def findEntry (k : String) (fm : List (String × List Modlet)) : Option (List Modlet) :=
  (fm.find? (fun e => e.1 == k)).map (·.2)

/-- Ordered insertion used to model the stable
`sort_by(|a, b| a.name().cmp(&b.name()))`. -/
def insertByName (m : Modlet) : List Modlet → List Modlet
  | [] => [m]
  | x :: rest =>
    if m.name.data < x.name.data then m :: x :: rest else x :: insertByName m rest

/-- `loaded_modlets.sort_by(|a, b| a.name().cmp(&b.name()))`
(src/dmt/commands/package.rs line 193), modelled as a stable insertion
sort (any stable sort by name is extensionally the same). -/
def sortByName (modlets : List Modlet) : List Modlet :=
  modlets.foldl (fun acc m => insertByName m acc) []

/-- Observable outcome of one package run: the merged config files (by
name, with the replay result) and the failure report (the red
`N modlet(s) failed to package!` message) carrying the number of failed
modlets, `none` on the success path. -/
structure RunOutput where
  written : List (String × Except Panic (List XmlEvent))
  failureReport : Option Nat

/-- `run` (src/dmt/commands/package.rs lines 109-277) after the parallel
loads: `results` holds one load result per requested modlet path, in
request order (the physical completion order only permutes
`loaded_modlets`, which is then sorted).  When every load succeeded the
modlets are sorted by name, grouped with `file_map`, and each grouped
file is packaged; otherwise nothing is written and the failure count is
reported. -/
def run (results : List (Except String Modlet)) : RunOutput :=
  let loaded := results.filterMap Except.toOption
  if loaded.length = results.length then
    let sorted := sortByName loaded
    { written := (fileMap sorted).map (fun e => (e.1, package e.1 e.2)),
      failureReport := none }
  else
    { written := [], failureReport := some (results.length - loaded.length) }

/-- Payload shapes the writer serializes into a form the parser snapshot
reads back unchanged: at most one value, already trimmed and nonempty. -/
def goodValues : List String → Bool
  | [] => true
  | [v] => decide (rustTrim v = v) && decide (v ≠ "")
  | _ :: _ :: _ => false

/-- Commands whose serialized form the parser snapshot re-reads into the
same command: comments (trimmed, nonempty), `set` and operator-carrying
`csv` with a present xpath, and wrappers (which serialize to nothing and
are excepted from the round trip). -/
def goodCmd : Command → Bool
  | .Comment s => decide (rustTrim s = s) && decide (s ≠ "")
  | .Set is => is.xpath.isSome && is.attr.isNone && is.csv_op.isNone && goodValues is.values
  | .Csv is => is.xpath.isSome && is.attr.isNone && is.csv_op.isSome && goodValues is.values
  | .StartTag _ => true
  | _ => false

/-! Theorems.  Claim identifiers C1-C10 refer to the frozen claim list;
each claim theorem carries its statement in its doc comment. -/

/-- Helper: the count check `loaded_modlets.len() == modlet_count` fails
exactly when fewer loads succeeded than were requested. -/
theorem run_count_ne_of_lt {results : List (Except String Modlet)}
    (h : (results.filterMap Except.toOption).length < results.length) :
    ¬ (results.filterMap Except.toOption).length = results.length :=
  Nat.ne_of_lt h

/-- C2: for every package run over a list of requested modlet paths, if
the number of successfully loaded modlets is less than the number
requested, the run writes nothing (zero output files) and reports the
failure count instead of packaging. -/
theorem c2_partial_failure_no_output (results : List (Except String Modlet))
    (h : (results.filterMap Except.toOption).length < results.length) :
    (run results).written = []
      ∧ (run results).failureReport
          = some (results.length - (results.filterMap Except.toOption).length) := by
  unfold run
  rw [if_neg (run_count_ne_of_lt h)]
  exact ⟨rfl, rfl⟩

/-- Witness for C2: one requested modlet whose load failed. -/
theorem c2_partial_failure_no_output_witness :
    ((([Except.error "Invalid Modlet: Config directory does not exist"]
        : List (Except String Modlet)).filterMap Except.toOption).length < 1)
    ∧ (run [Except.error "Invalid Modlet: Config directory does not exist"]).written = []
    ∧ (run [Except.error "Invalid Modlet: Config directory does not exist"]).failureReport = some 1 :=
  ⟨by decide,
    (c2_partial_failure_no_output _ (by decide)).1,
    (c2_partial_failure_no_output _ (by decide)).2⟩

/-- C4 counterexample: a self-closed `<remove xpath="a"/>` (resp.
`<remove_attribute .../>`) at top level parses to the empty command
list: no `Remove`/`RemoveAttribute` command is emitted and the xpath is
never read, contrary to the claim. -/
theorem c4_empty_remove_not_emitted :
    loadXml [.empty "remove" [("xpath", "a")]] = .ok []
    ∧ loadXml [.empty "remove_attribute" [("xpath", "a"), ("name", "n")]] = .ok [] :=
  ⟨rfl, rfl⟩

/-- C4 amended: for every self-closed tag named `remove` or
`remove_attribute`, the parser only appends the tag's raw text to the
pending `InstructionSet` payload; it emits no command and reads no
attribute. -/
theorem c4_empty_tag_captured (st : ParserState) (tagName : String) (attrs : Attrs)
    (h : tagName ∈ EMPTY_COMMANDS) :
    step st (.empty tagName attrs)
      = .ok { st with modlet :=
          { st.modlet with values := st.modlet.values ++ [rawOf tagName attrs] } } := by
  simp [step, h]

/-- Witness for C4 amended: the concrete `<remove xpath="a"/>` event. -/
theorem c4_empty_tag_captured_witness :
    ("remove" ∈ EMPTY_COMMANDS)
    ∧ step initState (.empty "remove" [("xpath", "a")])
        = .ok { initState with modlet :=
            { initState.modlet with values := [rawOf "remove" [("xpath", "a")]] } } :=
  ⟨by decide, c4_empty_tag_captured initState "remove" [("xpath", "a")] (by decide)⟩

/-- C5 counterexample: the tag name `APPEND` equals the vocabulary word
`append` up to letter case, yet the `from_str` used by `load_xml`
classifies it as `Unknown`, and the parser consequently treats an
`APPEND` element as a transparent wrapper instead of an append
command. -/
theorem c5_parser_case_sensitive :
    Command.fromStr "APPEND" = Command.Unknown
    ∧ toFlat "APPEND" = toFlat "append"
    ∧ Command.fromStrFlat "APPEND" = Command.Append InstructionSet.new
    ∧ loadXml [.start "APPEND" [("xpath", "a")], .endTag "APPEND"]
        = .ok [.StartTag none] :=
  ⟨rfl, rfl, rfl, rfl⟩

/-- C5 amended: classification by `Command::from_str` of
src/modlet_xml/command.rs is case- and separator-insensitive (it
depends only on the flat-cased name, and every vocabulary word is
recognized in any casing/separator variant), while the `from_str` of
src/modlet_xml.rs used by `load_xml` recognizes only the exact
lowercase snake_case spellings. -/
theorem c5_flat_classification :
    (∀ s t : String, toFlat s = toFlat t → Command.fromStrFlat s = Command.fromStrFlat t)
    ∧ Command.fromStrFlat "Append" = .Append .new
    ∧ Command.fromStrFlat "Comment" = .Comment ""
    ∧ Command.fromStrFlat "CSV" = .Csv .new
    ∧ Command.fromStrFlat "INSERT_AFTER" = .InsertAfter .new
    ∧ Command.fromStrFlat "Insert-Before" = .InsertBefore .new
    ∧ Command.fromStrFlat "No_Op" = .NoOp
    ∧ Command.fromStrFlat "Remove" = .Remove .new
    ∧ Command.fromStrFlat "REMOVE_ATTRIBUTE" = .RemoveAttribute .new
    ∧ Command.fromStrFlat "SET" = .Set .new
    ∧ Command.fromStrFlat "Set Attribute" = .SetAttribute .new
    ∧ Command.fromStrFlat "Start_Tag" = .StartTag none
    ∧ Command.fromStr "Append" = .Unknown
    ∧ Command.fromStr "INSERT_AFTER" = .Unknown := by
  refine ⟨fun s t h => ?_, rfl, rfl, rfl, rfl, rfl, rfl, rfl, rfl, rfl, rfl, rfl, rfl, rfl⟩
  unfold Command.fromStrFlat
  rw [h]

/-- Witness for C5 amended: two spellings of `set_attribute` with equal
flat form classify identically. -/
theorem c5_flat_classification_witness :
    Command.fromStrFlat "SET_ATTRIBUTE" = Command.fromStrFlat "setAttribute" :=
  c5_flat_classification.1 "SET_ATTRIBUTE" "setAttribute" rfl

/-- C6 counterexample: the document `<Wrapper></Wrapper>` parses to the
singleton `[StartTag none]`: closing the unrecognized wrapper pushes a
`Command` into the output sequence, contrary to the claim that the
wrapper never produces a Command. -/
theorem c6_wrapper_close_emits_starttag :
    loadXml [.start "Wrapper" [], .endTag "Wrapper"] = .ok [.StartTag none]
    ∧ ([Command.StartTag none] : List Command) ≠ [] :=
  ⟨rfl, by decide⟩

/-- C6 amended: an end tag with an unrecognized name, seen while a
wrapper name is remembered and no collection command is open, resets
the open-command state (stack cleared, fresh `InstructionSet`) but
pushes `Command::StartTag(None)` into the output; the remembered
wrapper name is kept.  (The writer emits nothing for `StartTag`, so
wrappers still never reach serialized output.) -/
theorem c6_wrapper_close_behavior (st : ParserState) (tag : String)
    (h1 : Command.fromStr tag = .Unknown) (h2 : st.startTag ≠ "")
    (h3 : lastCommand st ∉ COLLECTION_COMMANDS) :
    step st (.endTag tag)
      = .ok { st with commands := st.commands ++ [.StartTag none],
                      stack := [], modlet := .new } := by
  simp [step, h1, h2, h3, Command.asRef, Command.set]

/-- Witness for C6 amended: the state just after `<Wrapper>` was opened,
closing with `</Wrapper>`. -/
theorem c6_wrapper_close_behavior_witness :
    (Command.fromStr "Wrapper" = .Unknown)
    ∧ (("Wrapper" : String) ≠ "")
    ∧ (lastCommand ⟨[], [], .new, "Wrapper"⟩ ∉ COLLECTION_COMMANDS)
    ∧ step ⟨[], [], .new, "Wrapper"⟩ (.endTag "Wrapper")
        = .ok ⟨[.StartTag none], [], .new, "Wrapper"⟩ :=
  ⟨rfl, by decide, by decide,
    c6_wrapper_close_behavior ⟨[], [], .new, "Wrapper"⟩ "Wrapper" rfl (by decide) (by decide)⟩

/-- C7 counterexample: a text event with no open command makes the
parser panic with `Unhandled text tag received: ...` (a process
termination, modelled as the sole `Panic` failure) instead of returning
a `MalformedInstruction` parse-error value -- no such error value
exists in the code. -/
theorem c7_stray_text_panics :
    loadXml [.text "boom"]
      = .error (.panic "Unhandled text tag received: boom") :=
  rfl

/-- C7 amended: for every nonempty trimmed text encountered while the
open command is not a text-kind command, the parser panics (terminates)
with a message naming the text; it does not return a recoverable parse
error. -/
theorem c7_stray_text_panic_general (st : ParserState) (s : String)
    (h1 : rustTrim s = s) (h2 : s ≠ "") (h3 : lastCommand st ∉ TEXT_COMMANDS) :
    step st (.text s) = .error (.panic ("Unhandled text tag received: " ++ s)) := by
  simp [step, h1, h2, h3]

/-- Witness for C7 amended: text at the initial (idle) state. -/
theorem c7_stray_text_panic_general_witness :
    (rustTrim "boom" = "boom")
    ∧ (("boom" : String) ≠ "")
    ∧ (lastCommand initState ∉ TEXT_COMMANDS)
    ∧ step initState (.text "boom")
        = .error (.panic "Unhandled text tag received: boom") :=
  ⟨by decide, by decide, by decide,
    c7_stray_text_panic_general initState "boom" (by decide) (by decide) (by decide)⟩

/-- C10: writing a `Csv` command whose `csv_op` is `None` panics on the
`unwrap()` in `Command::write`; and the parser produces exactly such a
command whenever a `csv` element carries no `op` attribute (the `delim`
attribute still defaults to `,`). -/
theorem c10_csv_write_panics_without_op :
    (∀ is : InstructionSet, is.csv_op = none →
      Command.write (.Csv is)
        = .error (.panic "called Option::unwrap() on a None value: Csv csv_op"))
    ∧ (∀ (attrs : Attrs) (st : ParserState),
        lastCommand st ∉ COLLECTION_COMMANDS →
        getAttribute attrs "op" = none →
        getAttribute attrs "delim" = none →
        step st (.start "csv" attrs)
          = .ok { st with
              modlet := { st.modlet with xpath := getAttribute attrs "xpath", csv_op := none },
              stack := st.stack ++ [.Csv .new] }) := by
  constructor
  · intro is h
    simp only [Command.write]
    rw [h]
  · intro attrs st hcoll hop hdelim
    simp [step, hcoll, hop, hdelim,
      show Command.fromStr "csv" = Command.Csv InstructionSet.new from rfl, Command.asRef]

/-- Witness for C10: the default `InstructionSet` and the concrete
element `<csv xpath="a">` with no `op`. -/
theorem c10_csv_write_panics_without_op_witness :
    Command.write (.Csv InstructionSet.new)
      = .error (.panic "called Option::unwrap() on a None value: Csv csv_op")
    ∧ step initState (.start "csv" [("xpath", "a")])
        = .ok { initState with
            modlet := { InstructionSet.new with xpath := some "a", csv_op := none },
            stack := [.Csv .new] } :=
  ⟨c10_csv_write_panics_without_op.1 InstructionSet.new rfl,
    c10_csv_write_panics_without_op.2 [("xpath", "a")] initState (by decide) rfl rfl⟩

/-- Helper: folding one event whose step succeeds. -/
theorem processList_ok_cons (st st' : ParserState) (e : XmlEvent) (evs : List XmlEvent)
    (h : step st e = .ok st') :
    processList st (e :: evs) = processList st' evs := by
  simp only [processList, List.foldlM_cons, h]
  rfl

/-- Helper: the wrapper filter distributes over cons. -/
theorem dropWrappers_cons (c : Command) (cs : List Command) :
    dropWrappers (c :: cs) = dropWrappers [c] ++ dropWrappers cs := by
  cases c <;> simp [dropWrappers]

/-- Helper: a good command serializes successfully, and the parser folds
its serialized events from an idle state into exactly that command (a
wrapper into nothing). -/
theorem write_good_step (c : Command) (h : goodCmd c = true) :
    ∃ evs, c.write = .ok evs ∧
      ∀ (acc : List Command) (stg : String) (rest : List XmlEvent),
        processList ⟨acc, [], .new, stg⟩ (evs ++ rest) =
        processList ⟨acc ++ dropWrappers [c], [], .new, stg⟩ rest := by
  cases c with
  | Comment s =>
    simp only [goodCmd, Bool.and_eq_true, decide_eq_true_eq] at h
    obtain ⟨h1, h2⟩ := h
    refine ⟨[.comment s], rfl, fun acc stg rest => ?_⟩
    have hs : step ⟨acc, [], .new, stg⟩ (.comment s) = .ok ⟨acc ++ [.Comment s], [], .new, stg⟩ := by
      simp [step, h1, h2]
    simp only [List.cons_append, List.nil_append]
    rw [processList_ok_cons _ _ _ _ hs]
    simp [dropWrappers]
  | StartTag o =>
    refine ⟨[], rfl, fun acc stg rest => ?_⟩
    simp [dropWrappers]
  | Set is =>
    obtain ⟨attr0, values, csvop0, xpath0⟩ := is
    simp only [goodCmd, Bool.and_eq_true, Option.isSome_iff_exists, Option.isNone_iff_eq_none,
      decide_eq_true_eq] at h
    obtain ⟨⟨⟨⟨x, hx⟩, hattr⟩, hop⟩, hvals⟩ := h
    subst hx; subst hattr; subst hop
    have hstart : ∀ acc stg, step ⟨acc, [], .new, stg⟩ (.start "set" [("xpath", x)])
        = .ok ⟨acc, [.Set .new], ⟨none, [], none, some x⟩, stg⟩ := by
      intro acc stg
      simp [step, lastCommand, Command.asRef, getAttribute, COLLECTION_COMMANDS,
        show Command.fromStr "set" = Command.Set InstructionSet.new from rfl, InstructionSet.new]
    have hend : ∀ acc stg (m : InstructionSet), step ⟨acc, [.Set .new], m, stg⟩ (.endTag "set")
        = .ok ⟨acc ++ [.Set m], [], .new, stg⟩ := by
      intro acc stg m
      simp [step, lastCommand, Command.asRef, Command.set, COLLECTION_COMMANDS,
        show Command.fromStr "set" = Command.Set InstructionSet.new from rfl]
    match values, hvals with
    | [], _ =>
      refine ⟨[.start "set" [("xpath", x)], .text (joinComma []), .endTag "set"],
        rfl, fun acc stg rest => ?_⟩
      have htext : step ⟨acc, [.Set .new], ⟨none, [], none, some x⟩, stg⟩ (.text (joinComma []))
          = .ok ⟨acc, [.Set .new], ⟨none, [], none, some x⟩, stg⟩ := by
        simp [step, joinComma, rustTrim]
      simp only [List.cons_append, List.nil_append]
      rw [processList_ok_cons _ _ _ _ (hstart acc stg),
          processList_ok_cons _ _ _ _ htext,
          processList_ok_cons _ _ _ _ (hend acc stg _)]
      simp [dropWrappers]
    | [v], hv =>
      simp only [goodValues, Bool.and_eq_true, decide_eq_true_eq] at hv
      obtain ⟨hv1, hv2⟩ := hv
      refine ⟨[.start "set" [("xpath", x)], .text (joinComma [v]), .endTag "set"],
        rfl, fun acc stg rest => ?_⟩
      have htext : step ⟨acc, [.Set .new], ⟨none, [], none, some x⟩, stg⟩ (.text (joinComma [v]))
          = .ok ⟨acc, [.Set .new], ⟨none, [v], none, some x⟩, stg⟩ := by
        simp [step, joinComma, hv1, hv2, lastCommand, Command.asRef, TEXT_COMMANDS]
      simp only [List.cons_append, List.nil_append]
      rw [processList_ok_cons _ _ _ _ (hstart acc stg),
          processList_ok_cons _ _ _ _ htext,
          processList_ok_cons _ _ _ _ (hend acc stg _)]
      simp [dropWrappers]
  | Csv is =>
    obtain ⟨attr0, values, csvop0, xpath0⟩ := is
    simp only [goodCmd, Bool.and_eq_true, Option.isSome_iff_exists, Option.isNone_iff_eq_none,
      decide_eq_true_eq] at h
    obtain ⟨⟨⟨⟨x, hx⟩, hattr⟩, hop⟩, hvals⟩ := h
    obtain ⟨opv, hopv⟩ := hop
    subst hx; subst hattr; subst hopv
    have hstart : ∀ acc stg, step ⟨acc, [], .new, stg⟩
          (.start "csv" [("xpath", x), ("delim", ⟨[opv.delim]⟩), ("op", opv.opStr)])
        = .ok ⟨acc, [.Csv .new], ⟨none, [], some opv, some x⟩, stg⟩ := by
      intro acc stg
      cases opv with
      | add d =>
        simp [step, lastCommand, Command.asRef, getAttribute, COLLECTION_COMMANDS,
          show Command.fromStr "csv" = Command.Csv InstructionSet.new from rfl,
          CsvInstruction.delim, CsvInstruction.opStr, InstructionSet.new]
      | remove d =>
        simp [step, lastCommand, Command.asRef, getAttribute, COLLECTION_COMMANDS,
          show Command.fromStr "csv" = Command.Csv InstructionSet.new from rfl,
          CsvInstruction.delim, CsvInstruction.opStr, InstructionSet.new]
    have hend : ∀ acc stg (m : InstructionSet), step ⟨acc, [.Csv .new], m, stg⟩ (.endTag "csv")
        = .ok ⟨acc ++ [.Csv m], [], .new, stg⟩ := by
      intro acc stg m
      simp [step, lastCommand, Command.asRef, Command.set, COLLECTION_COMMANDS,
        show Command.fromStr "csv" = Command.Csv InstructionSet.new from rfl]
    match values, hvals with
    | [], _ =>
      refine ⟨[.start "csv" [("xpath", x), ("delim", ⟨[opv.delim]⟩), ("op", opv.opStr)],
        .text (joinComma []), .endTag "csv"], rfl, fun acc stg rest => ?_⟩
      have htext : step ⟨acc, [.Csv .new], ⟨none, [], some opv, some x⟩, stg⟩ (.text (joinComma []))
          = .ok ⟨acc, [.Csv .new], ⟨none, [], some opv, some x⟩, stg⟩ := by
        simp [step, joinComma, rustTrim]
      simp only [List.cons_append, List.nil_append]
      rw [processList_ok_cons _ _ _ _ (hstart acc stg),
          processList_ok_cons _ _ _ _ htext,
          processList_ok_cons _ _ _ _ (hend acc stg _)]
      simp [dropWrappers]
    | [v], hv =>
      simp only [goodValues, Bool.and_eq_true, decide_eq_true_eq] at hv
      obtain ⟨hv1, hv2⟩ := hv
      refine ⟨[.start "csv" [("xpath", x), ("delim", ⟨[opv.delim]⟩), ("op", opv.opStr)],
        .text (joinComma [v]), .endTag "csv"], rfl, fun acc stg rest => ?_⟩
      have htext : step ⟨acc, [.Csv .new], ⟨none, [], some opv, some x⟩, stg⟩ (.text (joinComma [v]))
          = .ok ⟨acc, [.Csv .new], ⟨none, [v], some opv, some x⟩, stg⟩ := by
        simp [step, joinComma, hv1, hv2, lastCommand, Command.asRef, TEXT_COMMANDS]
      simp only [List.cons_append, List.nil_append]
      rw [processList_ok_cons _ _ _ _ (hstart acc stg),
          processList_ok_cons _ _ _ _ htext,
          processList_ok_cons _ _ _ _ (hend acc stg _)]
      simp [dropWrappers]
  | Append is => simp [goodCmd] at h
  | InsertAfter is => simp [goodCmd] at h
  | InsertBefore is => simp [goodCmd] at h
  | NoOp => simp [goodCmd] at h
  | Remove is => simp [goodCmd] at h
  | RemoveAttribute is => simp [goodCmd] at h
  | SetAttribute is => simp [goodCmd] at h
  | Unknown => simp [goodCmd] at h

/-- Helper: serializing a good command list succeeds and re-parsing its
events appends exactly the wrapper-filtered list, generalized over the
writer and parser accumulators. -/
theorem writeAll_good (cs : List Command) (h : ∀ c ∈ cs, goodCmd c = true) :
    ∀ (acc0 : List XmlEvent) (acc : List Command) (stg : String) (rest : List XmlEvent),
      ∃ evs, (cs.foldlM (fun a c => c.write.map (a ++ ·)) acc0) = .ok (acc0 ++ evs) ∧
        processList ⟨acc, [], .new, stg⟩ (evs ++ rest) =
        processList ⟨acc ++ dropWrappers cs, [], .new, stg⟩ rest := by
  induction cs with
  | nil =>
    intro acc0 acc stg rest
    refine ⟨[], ?_, by simp [dropWrappers]⟩
    show pure acc0 = Except.ok (acc0 ++ [])
    rw [List.append_nil]
    rfl
  | cons c cs ih =>
    intro acc0 acc stg rest
    have hc := h c (List.mem_cons_self c cs)
    have hcs : ∀ c' ∈ cs, goodCmd c' = true := fun c' hm => h c' (List.mem_cons_of_mem c hm)
    obtain ⟨e, hw, hp⟩ := write_good_step c hc
    obtain ⟨evs, h1, h2⟩ := ih hcs (acc0 ++ e) (acc ++ dropWrappers [c]) stg rest
    refine ⟨e ++ evs, ?_, ?_⟩
    · rw [List.foldlM_cons, hw]
      show cs.foldlM (fun a c => c.write.map (a ++ ·)) (acc0 ++ e) = _
      rw [h1, List.append_assoc]
    · rw [List.append_assoc, hp acc stg (evs ++ rest), h2,
        List.append_assoc acc, ← dropWrappers_cons]

/-- C1 counterexample: the document `<remove xpath="a"></remove>` uses
only recognized commands and parses to `[Remove]`, but the writer
serializes `Remove` as a self-closed empty tag, which the parser does
not re-emit: the re-parse yields the empty command sequence, which is
not structurally equal to the first parse even after excepting wrapper
(`StartTag`) structure. -/
theorem c1_remove_breaks_roundtrip :
    loadXml [.start "remove" [("xpath", "a")], .endTag "remove"]
      = .ok [.Remove { xpath := some "a" }]
    ∧ writeAll [.Remove { xpath := some "a" }]
      = .ok [.empty "remove" [("xpath", "a")]]
    ∧ loadXml [.empty "remove" [("xpath", "a")]] = .ok []
    ∧ dropWrappers [] ≠ dropWrappers [Command.Remove { xpath := some "a" }] :=
  ⟨rfl, rfl, rfl, by decide⟩

/-- C1 amended: the round trip holds for the command kinds whose
serialized form the parser snapshot re-recognizes -- `Comment`, `Set`
and operator-carrying `Csv` commands with a present xpath and at most
one trimmed nonempty payload value, plus wrappers (`StartTag`), which
serialize to nothing and are dropped: re-parsing the writer output of
such a sequence yields the sequence with its wrappers removed.  It
fails for the remaining kinds: `Remove`/`RemoveAttribute` serialize to
empty tags the parser does not re-emit, `SetAttribute` and operator-less
`Csv` panic in the writer, `insertAfter`/`insertBefore` serialize under
camel-cased names the parser snapshot classifies as unrecognized, and
the collection payload representations of the two snapshots (captured
events vs raw strings) do not compose. -/
theorem c1_roundtrip_amended (cs : List Command) (h : ∀ c ∈ cs, goodCmd c = true) :
    ∃ evs, writeAll cs = .ok evs ∧ loadXml evs = .ok (dropWrappers cs) := by
  obtain ⟨evs, h1, h2⟩ := writeAll_good cs h [] [] "" []
  refine ⟨evs, ?_, ?_⟩
  · simpa [writeAll] using h1
  · simp only [List.append_nil, List.nil_append] at h2
    simp only [loadXml, initState]
    rw [h2]
    rfl

/-- Witness for C1 amended: a comment, a set, a wrapper marker and a
csv command with operator. -/
theorem c1_roundtrip_amended_witness :
    (∀ c ∈ ([.Comment "hello",
             .Set { values := ["5"], xpath := some "//item/@value" },
             .StartTag (some "Wrap"),
             .Csv { values := ["new"], csv_op := some (.add ','), xpath := some "//item/@tags" }]
            : List Command), goodCmd c = true)
    ∧ (∃ evs,
        writeAll [.Comment "hello",
             .Set { values := ["5"], xpath := some "//item/@value" },
             .StartTag (some "Wrap"),
             .Csv { values := ["new"], csv_op := some (.add ','), xpath := some "//item/@tags" }]
          = .ok evs
        ∧ loadXml evs
          = .ok (dropWrappers [.Comment "hello",
             .Set { values := ["5"], xpath := some "//item/@value" },
             .StartTag (some "Wrap"),
             .Csv { values := ["new"], csv_op := some (.add ','), xpath := some "//item/@tags" }])) :=
  ⟨by decide, c1_roundtrip_amended _ (by decide)⟩


/-- Helper: strings with equal character data are equal. -/
theorem stringDataInj {s t : String} (h : s.data = t.data) : s = t := by
  cases s; cases t; exact congrArg String.mk h

/-- Helper: members of the map after an insertion either carry the
inserted key or were present before. -/
theorem mem_insertContrib (k : String) (m : Modlet) (fm : List (String × List Modlet))
    (x : String × List Modlet) (hx : x ∈ insertContrib k m fm) : x.1 = k ∨ x ∈ fm := by
  induction fm with
  | nil =>
    simp only [insertContrib, List.mem_singleton] at hx
    subst hx
    exact Or.inl rfl
  | cons ent rest ih =>
    simp only [insertContrib] at hx
    split_ifs at hx with h1 h2
    · rcases List.mem_cons.mp hx with h | h
      · subst h
        exact Or.inl h1
      · exact Or.inr (List.mem_cons_of_mem ent h)
    · rcases List.mem_cons.mp hx with h | h
      · subst h
        exact Or.inl rfl
      · exact Or.inr h
    · rcases List.mem_cons.mp hx with h | h
      · exact Or.inr (by rw [h]; exact List.mem_cons_self _ _)
      · rcases ih h with h' | h'
        · exact Or.inl h'
        · exact Or.inr (List.mem_cons_of_mem ent h')

/-- Helper: `insertContrib` preserves strict key sortedness, the
`BTreeMap` invariant. -/
theorem sorted_insertContrib (k : String) (m : Modlet) (fm : List (String × List Modlet))
    (h : fm.Pairwise (fun a b => a.1.data < b.1.data)) :
    (insertContrib k m fm).Pairwise (fun a b => a.1.data < b.1.data) := by
  induction fm with
  | nil => simp [insertContrib]
  | cons ent rest ih =>
    rw [List.pairwise_cons] at h
    obtain ⟨h1, h2⟩ := h
    simp only [insertContrib]
    split_ifs with he hk
    · exact List.pairwise_cons.mpr ⟨h1, h2⟩
    · refine List.pairwise_cons.mpr ⟨?_, List.pairwise_cons.mpr ⟨h1, h2⟩⟩
      intro b hb
      rcases List.mem_cons.mp hb with hb | hb
      · subst hb
        exact hk
      · exact lt_trans hk (h1 b hb)
    · refine List.pairwise_cons.mpr ⟨?_, ih h2⟩
      intro b hb
      rcases mem_insertContrib k m rest b hb with hb' | hb'
      · rw [hb']
        rcases lt_trichotomy ent.1.data k.data with hlt | heq | hgt
        · exact hlt
        · exact absurd (stringDataInj heq) he
        · exact absurd hgt hk
      · exact h1 b hb'

/-- Helper: lookup misses when no entry carries the key. -/
theorem find?_entry_none (k : String) (fm : List (String × List Modlet))
    (h : ∀ e ∈ fm, e.1 ≠ k) : fm.find? (fun e => e.1 == k) = none :=
  List.find?_eq_none.mpr (fun x hx => by simpa using h x hx)

/-- Helper: looking up the inserted key finds the old vector with the
modlet pushed at the end. -/
theorem findEntry_insertContrib_self (k : String) (m : Modlet)
    (fm : List (String × List Modlet))
    (h : fm.Pairwise (fun a b => a.1.data < b.1.data)) :
    findEntry k (insertContrib k m fm) = some ((findEntry k fm).getD [] ++ [m]) := by
  induction fm with
  | nil => simp [insertContrib, findEntry, List.find?]
  | cons ent rest ih =>
    rw [List.pairwise_cons] at h
    obtain ⟨h1, h2⟩ := h
    simp only [insertContrib]
    split_ifs with he hk
    · subst he
      simp [findEntry, List.find?]
    · have hne : (ent.1 == k) = false := beq_eq_false_iff_ne.mpr he
      have hrest : rest.find? (fun e => e.1 == k) = none := by
        refine find?_entry_none k rest (fun x hx hxk => ?_)
        have := h1 x hx
        rw [hxk] at this
        exact lt_asymm hk this
      simp [findEntry, List.find?, hne, hrest]
    · have hne : (ent.1 == k) = false := beq_eq_false_iff_ne.mpr he
      simp only [findEntry, List.find?, hne]
      exact ih h2

/-- Helper: inserting under a different key leaves a lookup unchanged. -/
theorem findEntry_insertContrib_other (k k' : String) (m : Modlet)
    (fm : List (String × List Modlet)) (hne : k' ≠ k) :
    findEntry k (insertContrib k' m fm) = findEntry k fm := by
  induction fm with
  | nil => simp [insertContrib, findEntry, List.find?, beq_eq_false_iff_ne.mpr hne]
  | cons ent rest ih =>
    simp only [insertContrib]
    split_ifs with he hk
    · subst he
      simp [findEntry, List.find?, beq_eq_false_iff_ne.mpr hne]
    · simp [findEntry, List.find?, beq_eq_false_iff_ne.mpr hne]
    · by_cases hek : ent.1 = k
      · simp [findEntry, List.find?, hek]
      · simp only [findEntry, List.find?, beq_eq_false_iff_ne.mpr hek]
        exact ih

/-- Helper: inserting all of one modlet's files preserves sortedness. -/
theorem sorted_foldl_files (files : List String) (m : Modlet)
    (acc : List (String × List Modlet))
    (h : acc.Pairwise (fun a b => a.1.data < b.1.data)) :
    (files.foldl (fun a f => insertContrib f m a) acc).Pairwise
      (fun a b => a.1.data < b.1.data) := by
  induction files generalizing acc with
  | nil => exact h
  | cons f fs ih => exact ih _ (sorted_insertContrib f m acc h)

/-- Helper: after inserting one modlet under each of its (distinct) file
names, a lookup gains that modlet exactly on its own file names. -/
theorem findEntry_foldl_files (files : List String) (m : Modlet) (k : String) :
    ∀ (acc : List (String × List Modlet)),
    acc.Pairwise (fun a b => a.1.data < b.1.data) → files.Nodup →
    findEntry k (files.foldl (fun a f => insertContrib f m a) acc)
      = if k ∈ files then some ((findEntry k acc).getD [] ++ [m]) else findEntry k acc := by
  induction files with
  | nil =>
    intro acc hs hnd
    simp
  | cons f fs ih =>
    intro acc hs hnd
    rw [List.nodup_cons] at hnd
    obtain ⟨hf, hfs⟩ := hnd
    rw [List.foldl_cons]
    by_cases hkf : k = f
    · subst hkf
      rw [ih _ (sorted_insertContrib k m acc hs) hfs, if_neg hf,
        findEntry_insertContrib_self k m acc hs, if_pos (List.mem_cons_self k fs)]
    · rw [ih _ (sorted_insertContrib f m acc hs) hfs,
        findEntry_insertContrib_other k f m acc (fun h => hkf h.symm)]
      by_cases hmem : k ∈ fs
      · rw [if_pos hmem, if_pos (List.mem_cons_of_mem f hmem)]
      · rw [if_neg hmem, if_neg (fun h => by
          rcases List.mem_cons.mp h with h | h
          · exact hkf h
          · exact hmem h)]

/-- Helper: generalized characterization of `file_map` lookups over the
fold accumulator. -/
theorem findEntry_fileMap_foldl (k : String) (ms : List Modlet) :
    ∀ (acc : List (String × List Modlet)),
    acc.Pairwise (fun a b => a.1.data < b.1.data) →
    (∀ m ∈ ms, m.xmlFiles.Nodup) →
    findEntry k (ms.foldl (fun acc m => m.xmlFiles.foldl (fun a f => insertContrib f m a) acc) acc)
      = if findEntry k acc = none ∧ ms.filter (fun m => decide (k ∈ m.xmlFiles)) = []
        then none
        else some ((findEntry k acc).getD []
          ++ ms.filter (fun m => decide (k ∈ m.xmlFiles))) := by
  induction ms with
  | nil =>
    intro acc hs hnd
    cases hacc : findEntry k acc with
    | none => simp [hacc]
    | some v => simp [hacc]
  | cons m ms ih =>
    intro acc hs hnd
    rw [List.foldl_cons]
    have hnd1 : m.xmlFiles.Nodup := hnd m (List.mem_cons_self m ms)
    have hnds : ∀ m' ∈ ms, m'.xmlFiles.Nodup := fun m' hm => hnd m' (List.mem_cons_of_mem m hm)
    rw [ih _ (sorted_foldl_files m.xmlFiles m acc hs) hnds]
    rw [findEntry_foldl_files m.xmlFiles m k acc hs hnd1]
    by_cases hmem : k ∈ m.xmlFiles
    · rw [if_pos hmem]
      simp [hmem, List.filter_cons]
    · rw [if_neg hmem]
      simp [hmem, List.filter_cons]

/-- Helper: a `file_map` lookup returns exactly the modlets whose
instruction-file names contain the key, in iteration order. -/
theorem findEntry_fileMap (ms : List Modlet) (k : String)
    (hnd : ∀ m ∈ ms, m.xmlFiles.Nodup) :
    findEntry k (fileMap ms)
      = if ms.filter (fun m => decide (k ∈ m.xmlFiles)) = []
        then none
        else some (ms.filter (fun m => decide (k ∈ m.xmlFiles))) := by
  have h := findEntry_fileMap_foldl k ms [] (by simp) hnd
  rw [fileMap] at * 
  rw [h]
  have hnil : findEntry k ([] : List (String × List Modlet)) = none := rfl
  rw [hnil]
  by_cases hfil : ms.filter (fun m => decide (k ∈ m.xmlFiles)) = []
  · rw [if_pos ⟨rfl, hfil⟩, if_pos hfil]
  · rw [if_neg (fun hcon => hfil hcon.2), if_neg hfil]
    simp

/-- Helper: ordered insertion permutes the cons. -/
theorem insertByName_perm (m : Modlet) (l : List Modlet) :
    (insertByName m l).Perm (m :: l) := by
  induction l with
  | nil => exact List.Perm.refl _
  | cons x rest ih =>
    simp only [insertByName]
    split_ifs with h
    · exact List.Perm.refl _
    · exact (ih.cons x).trans (List.Perm.swap m x rest)

/-- Helper: `sortByName` permutes its input. -/
theorem sortByName_perm (l : List Modlet) : (sortByName l).Perm l := by
  suffices h : ∀ acc : List Modlet,
      (l.foldl (fun acc m => insertByName m acc) acc).Perm (acc ++ l) by
    simpa [sortByName] using h []
  induction l with
  | nil => intro acc; simp
  | cons m ms ih =>
    intro acc
    rw [List.foldl_cons]
    refine (ih (insertByName m acc)).trans ?_
    refine (List.Perm.append_right ms (insertByName_perm m acc)).trans ?_
    exact List.perm_middle.symm

/-- Helper: members of an ordered insertion. -/
theorem mem_insertByName (m : Modlet) (l : List Modlet) (x : Modlet)
    (hx : x ∈ insertByName m l) : x = m ∨ x ∈ l := by
  induction l with
  | nil =>
    simp only [insertByName, List.mem_singleton] at hx
    exact Or.inl hx
  | cons y rest ih =>
    simp only [insertByName] at hx
    split_ifs at hx with h
    · rcases List.mem_cons.mp hx with h' | h'
      · exact Or.inl h'
      · exact Or.inr h'
    · rcases List.mem_cons.mp hx with h' | h'
      · exact Or.inr (by rw [h']; exact List.mem_cons_self _ _)
      · rcases ih h' with h'' | h''
        · exact Or.inl h''
        · exact Or.inr (List.mem_cons_of_mem y h'')

/-- Helper: ordered insertion preserves sortedness by name. -/
theorem sorted_insertByName (m : Modlet) (l : List Modlet)
    (h : l.Pairwise (fun a b => ¬ b.name.data < a.name.data)) :
    (insertByName m l).Pairwise (fun a b => ¬ b.name.data < a.name.data) := by
  induction l with
  | nil => simp [insertByName]
  | cons x rest ih =>
    rw [List.pairwise_cons] at h
    obtain ⟨h1, h2⟩ := h
    simp only [insertByName]
    split_ifs with hlt
    · refine List.pairwise_cons.mpr ⟨?_, List.pairwise_cons.mpr ⟨h1, h2⟩⟩
      intro b hb
      rcases List.mem_cons.mp hb with hb | hb
      · rw [hb]
        exact lt_asymm hlt
      · intro hcon
        exact h1 b hb (lt_trans hcon hlt)
    · refine List.pairwise_cons.mpr ⟨?_, ih h2⟩
      intro b hb
      rcases mem_insertByName m rest b hb with hb' | hb'
      · rw [hb']
        exact hlt
      · exact h1 b hb'

/-- Helper: `sortByName` sorts by name. -/
theorem sortByName_sorted (l : List Modlet) :
    (sortByName l).Pairwise (fun a b => ¬ b.name.data < a.name.data) := by
  suffices h : ∀ acc : List Modlet,
      acc.Pairwise (fun a b => ¬ b.name.data < a.name.data) →
      (l.foldl (fun acc m => insertByName m acc) acc).Pairwise
        (fun a b => ¬ b.name.data < a.name.data) by
    exact h [] (by simp)
  induction l with
  | nil => intro acc hacc; exact hacc
  | cons m ms ih =>
    intro acc hacc
    rw [List.foldl_cons]
    exact ih _ (sorted_insertByName m acc hacc)

/-- Helper: with pairwise distinct names, sorting is independent of the
input order -- load-completion order cannot influence the sorted list. -/
theorem sortByName_eq_of_perm (l l' : List Modlet) (hp : l.Perm l')
    (hn : (l.map Modlet.name).Nodup) : sortByName l = sortByName l' := by
  have p1 := sortByName_perm l
  have p2 := sortByName_perm l'
  have hperm : (sortByName l).Perm (sortByName l') := p1.trans (hp.trans p2.symm)
  have hn1 : ((sortByName l).map Modlet.name).Nodup :=
    ((p1.map Modlet.name).nodup_iff).mpr hn
  have hn2 : ((sortByName l').map Modlet.name).Nodup :=
    ((p2.map Modlet.name).nodup_iff).mpr ((hp.map Modlet.name).nodup hn)
  have hstrict : ∀ s : List Modlet,
      s.Pairwise (fun a b => ¬ b.name.data < a.name.data) →
      (s.map Modlet.name).Nodup →
      s.Pairwise (fun a b => a.name.data < b.name.data ∨ a = b) := by
    intro s hs hnd
    have hne : s.Pairwise (fun a b => a.name ≠ b.name) := List.pairwise_map.mp hnd
    refine (hs.and hne).imp ?_
    intro a b hab
    obtain ⟨hab1, hab2⟩ := hab
    rcases lt_trichotomy a.name.data b.name.data with h | h | h
    · exact Or.inl h
    · exact absurd (stringDataInj h) hab2
    · exact absurd h hab1
  have hr1 := hstrict _ (sortByName_sorted l) hn1
  have hr2 := hstrict _ (sortByName_sorted l') hn2
  haveI : IsAntisymm Modlet (fun a b => a.name.data < b.name.data ∨ a = b) := by
    refine ⟨fun a b hab hba => ?_⟩
    rcases hab with h | h
    · rcases hba with h' | h'
      · exact absurd h' (lt_asymm h)
      · exact h'.symm
    · exact h
  exact List.eq_of_perm_of_sorted hperm hr1 hr2

/-- Helper: the body loop of `package` writes, per contributing modlet,
the provenance comment followed by that modlet's replayed events. -/
theorem package_body_foldlM (file : String) (contribs : List Modlet) :
    ∀ (bodies : List (List XmlEvent)) (acc : List XmlEvent),
    contribs.mapM (fun m => m.writeXmls file) = .ok bodies →
    contribs.foldlM (fun acc m => (m.writeXmls file).map
        (fun evs => acc ++ (XmlEvent.comment (" Included from " ++ m.name ++ " ") :: evs))) acc
      = .ok (acc ++ (contribs.zip bodies).flatMap
          (fun p => XmlEvent.comment (" Included from " ++ p.1.name ++ " ") :: p.2)) := by
  induction contribs with
  | nil =>
    intro bodies acc hb
    simp only [List.mapM_nil] at hb
    have hbod : bodies = [] := by
      injection (show (Except.ok ([] : List (List XmlEvent)) : Except Panic _)
        = Except.ok bodies from hb) with h
      exact h.symm
    subst hbod
    show (pure acc : Except Panic (List XmlEvent)) = _
    rw [show (([] : List Modlet).zip ([] : List (List XmlEvent))).flatMap
      (fun p => XmlEvent.comment (" Included from " ++ p.1.name ++ " ") :: p.2) = [] from rfl,
      List.append_nil]
    rfl
  | cons m ms ih =>
    intro bodies acc hb
    rw [List.mapM_cons] at hb
    cases hw : m.writeXmls file with
    | error e =>
      rw [hw] at hb
      exact Except.noConfusion
        (show (Except.error e : Except Panic (List (List XmlEvent))) = Except.ok bodies from hb)
    | ok b =>
      rw [hw] at hb
      cases hms : ms.mapM (fun m => m.writeXmls file) with
      | error e =>
        rw [hms] at hb
        exact Except.noConfusion
          (show (Except.error e : Except Panic (List (List XmlEvent))) = Except.ok bodies from hb)
      | ok bs =>
        rw [hms] at hb
        have hbod : bodies = b :: bs := by
          injection (show (Except.ok (b :: bs) : Except Panic (List (List XmlEvent)))
            = Except.ok bodies from hb) with h
          exact h.symm
        subst hbod
        rw [List.foldlM_cons, hw]
        show ms.foldlM _ (acc ++ (XmlEvent.comment (" Included from " ++ m.name ++ " ") :: b)) = _
        rw [ih bs _ hms]
        simp [List.append_assoc]

/-- C3: for every grouped target path of a package run, the written
output is a single root element literally named `bundle` containing,
for each contributing modlet in lexicographic-by-name sorted order
(independent of load-completion order), the provenance comment
` Included from <modlet name> ` followed by the verbatim replay of that
modlet's Command sequence for that path, and then the closing root
element. -/
theorem c3_bundle_shape_sorted (loaded loaded' : List Modlet) (file : String)
    (contribs : List Modlet) (bodies : List (List XmlEvent))
    (hperm : loaded.Perm loaded')
    (hnames : (loaded.map Modlet.name).Nodup)
    (hnd : ∀ m ∈ loaded, m.xmlFiles.Nodup)
    (hfind : findEntry file (fileMap (sortByName loaded)) = some contribs)
    (hb : contribs.mapM (fun m => m.writeXmls file) = .ok bodies) :
    package file contribs = .ok ([XmlEvent.start "bundle" []]
        ++ (contribs.zip bodies).flatMap
            (fun p => XmlEvent.comment (" Included from " ++ p.1.name ++ " ") :: p.2)
        ++ [XmlEvent.endTag "bundle"])
    ∧ contribs = (sortByName loaded).filter (fun m => decide (file ∈ m.xmlFiles))
    ∧ sortByName loaded = sortByName loaded' := by
  refine ⟨?_, ?_, sortByName_eq_of_perm loaded loaded' hperm hnames⟩
  · have hbody := package_body_foldlM file contribs bodies [] hb
    simp only [List.nil_append] at hbody
    simp [package, hbody]
    rfl
  · have hnd' : ∀ m ∈ sortByName loaded, m.xmlFiles.Nodup :=
      fun m hm => hnd m (((sortByName_perm loaded).mem_iff).mp hm)
    rw [findEntry_fileMap (sortByName loaded) file hnd'] at hfind
    by_cases hfil : (sortByName loaded).filter (fun m => decide (file ∈ m.xmlFiles)) = []
    · rw [if_pos hfil] at hfind
      exact Option.noConfusion hfind
    · rw [if_neg hfil] at hfind
      injection hfind with h
      exact h.symm

/-- Witness for C3: modlets named `A` and `B`, loaded in the order
`B, A`, both touching `items.xml`. -/
theorem c3_bundle_shape_sorted_witness :
    package "items.xml"
        [⟨["tmp", "A"], [⟨[.Comment "from A"], ["tmp", "A", "config", "items.xml"]⟩], []⟩,
         ⟨["tmp", "B"], [⟨[.Comment "from B"], ["tmp", "B", "config", "items.xml"]⟩], []⟩]
      = .ok [.start "bundle" [], .comment " Included from A ", .comment "from A",
             .comment " Included from B ", .comment "from B", .endTag "bundle"]
    ∧ ([⟨["tmp", "A"], [⟨[.Comment "from A"], ["tmp", "A", "config", "items.xml"]⟩], []⟩,
        ⟨["tmp", "B"], [⟨[.Comment "from B"], ["tmp", "B", "config", "items.xml"]⟩], []⟩]
        : List Modlet)
      = (sortByName
          [⟨["tmp", "B"], [⟨[.Comment "from B"], ["tmp", "B", "config", "items.xml"]⟩], []⟩,
           ⟨["tmp", "A"], [⟨[.Comment "from A"], ["tmp", "A", "config", "items.xml"]⟩], []⟩]).filter
          (fun m => decide ("items.xml" ∈ m.xmlFiles))
    ∧ sortByName
        [⟨["tmp", "B"], [⟨[.Comment "from B"], ["tmp", "B", "config", "items.xml"]⟩], []⟩,
         ⟨["tmp", "A"], [⟨[.Comment "from A"], ["tmp", "A", "config", "items.xml"]⟩], []⟩]
      = sortByName
        [⟨["tmp", "A"], [⟨[.Comment "from A"], ["tmp", "A", "config", "items.xml"]⟩], []⟩,
         ⟨["tmp", "B"], [⟨[.Comment "from B"], ["tmp", "B", "config", "items.xml"]⟩], []⟩] :=
  c3_bundle_shape_sorted
    [⟨["tmp", "B"], [⟨[.Comment "from B"], ["tmp", "B", "config", "items.xml"]⟩], []⟩,
     ⟨["tmp", "A"], [⟨[.Comment "from A"], ["tmp", "A", "config", "items.xml"]⟩], []⟩]
    [⟨["tmp", "A"], [⟨[.Comment "from A"], ["tmp", "A", "config", "items.xml"]⟩], []⟩,
     ⟨["tmp", "B"], [⟨[.Comment "from B"], ["tmp", "B", "config", "items.xml"]⟩], []⟩]
    "items.xml"
    [⟨["tmp", "A"], [⟨[.Comment "from A"], ["tmp", "A", "config", "items.xml"]⟩], []⟩,
     ⟨["tmp", "B"], [⟨[.Comment "from B"], ["tmp", "B", "config", "items.xml"]⟩], []⟩]
    [[.comment "from A"], [.comment "from B"]]
    (by decide) (by decide) (by decide) rfl rfl

/-- C8 amended: instruction files are indexed by the final component
(base name) of their path -- `ModletXML::filename` is `file_name()` --
and the per-run file-contribution map is keyed by that base name, so
two instruction files with the same base name in different
subdirectories of config share one map entry (and hence one output
file); the directory part never influences the key. -/
theorem c8_basename_indexing (ms : List Modlet) (k : String) (contribs : List Modlet)
    (hnd : ∀ m ∈ ms, m.xmlFiles.Nodup)
    (hfind : findEntry k (fileMap ms) = some contribs) :
    contribs = ms.filter (fun m => decide (k ∈ m.xmlFiles))
    ∧ ∀ (cmds cmds' : List Command) (dir dir' : RPath) (base : String),
        ModletXML.filename ⟨cmds, dir ++ [base]⟩ = ModletXML.filename ⟨cmds', dir' ++ [base]⟩ := by
  constructor
  · rw [findEntry_fileMap ms k hnd] at hfind
    by_cases hfil : ms.filter (fun m => decide (k ∈ m.xmlFiles)) = []
    · rw [if_pos hfil] at hfind
      exact Option.noConfusion hfind
    · rw [if_neg hfil] at hfind
      injection hfind with h
      exact h.symm
  · intro cmds cmds' dir dir' base
    simp [ModletXML.filename, List.getLast?_concat]

/-- Helper: stripping a path prefix it actually has. -/
theorem stripRoot_append (root rel : RPath) : stripRoot root (root ++ rel) = some rel := by
  induction root with
  | nil => rfl
  | cons r rs ih => simp [stripRoot, ih]

/-- C9: during passthrough-file copying, when the destination path
already exists, a source file whose name lowercases to
`localization.txt` is not overwritten: the incoming content minus its
first (header) line is appended to the existing destination with CRLF
endings; every other duplicate destination is left unchanged (first
writer wins). -/
theorem c9_passthrough_merge (m : Modlet) (destination rel : RPath) (fs : FS)
    (c existing : String)
    (hfiles : m.files = [m.path ++ rel])
    (hdst : fs (destination ++ rel) = some existing)
    (hsrc : fs (m.path ++ rel) = some c) :
    (strLower (((m.path ++ rel).getLast?).getD "") = "localization.txt" →
      m.writeFiles destination fs
        = .ok (updateFS fs (destination ++ rel) (existing ++ localizationTail c)))
    ∧ (strLower (((m.path ++ rel).getLast?).getD "") ≠ "localization.txt" →
      m.writeFiles destination fs = .ok fs) := by
  constructor
  · intro hloc
    have hstep : writeFileStep m.path destination fs (m.path ++ rel)
        = .ok (updateFS fs (destination ++ rel) (existing ++ localizationTail c)) := by
      simp only [writeFileStep, stripRoot_append, hdst, hsrc, if_pos hloc]
    simp [Modlet.writeFiles, hfiles, hstep]
  · intro hloc
    have hstep : writeFileStep m.path destination fs (m.path ++ rel) = .ok fs := by
      simp only [writeFileStep, stripRoot_append, hdst, hsrc, if_neg hloc]
    simp [Modlet.writeFiles, hfiles, hstep]

/-- C8 counterexample: `config/a/items.xml` and `config/b/items.xml`
have the same `filename()`, and a run over two modlets carrying them
produces a single `file_map` entry keyed `items.xml`, not two distinct
entries. -/
theorem c8_same_basename_single_entry :
    ModletXML.filename ⟨[], ["config", "a", "items.xml"]⟩ = "items.xml"
    ∧ ModletXML.filename ⟨[], ["config", "b", "items.xml"]⟩ = "items.xml"
    ∧ (["config", "a", "items.xml"] : RPath) ≠ ["config", "b", "items.xml"]
    ∧ fileMap [⟨["A"], [⟨[], ["config", "a", "items.xml"]⟩], []⟩,
               ⟨["B"], [⟨[], ["config", "b", "items.xml"]⟩], []⟩]
      = [("items.xml", [⟨["A"], [⟨[], ["config", "a", "items.xml"]⟩], []⟩,
                        ⟨["B"], [⟨[], ["config", "b", "items.xml"]⟩], []⟩])] :=
  ⟨rfl, rfl, by decide, rfl⟩

/-- Witness for C8 amended: the two-modlet collision instance. -/
theorem c8_basename_indexing_witness :
    ([⟨["A"], [⟨[], ["config", "a", "items.xml"]⟩], []⟩,
      ⟨["B"], [⟨[], ["config", "b", "items.xml"]⟩], []⟩] : List Modlet)
      = ([⟨["A"], [⟨[], ["config", "a", "items.xml"]⟩], []⟩,
          ⟨["B"], [⟨[], ["config", "b", "items.xml"]⟩], []⟩] : List Modlet).filter
          (fun m => decide ("items.xml" ∈ m.xmlFiles))
    ∧ ModletXML.filename ⟨[], ["config", "a"] ++ ["items.xml"]⟩
        = ModletXML.filename ⟨[], ["config", "b"] ++ ["items.xml"]⟩ :=
  ⟨(c8_basename_indexing
      [⟨["A"], [⟨[], ["config", "a", "items.xml"]⟩], []⟩,
       ⟨["B"], [⟨[], ["config", "b", "items.xml"]⟩], []⟩]
      "items.xml"
      [⟨["A"], [⟨[], ["config", "a", "items.xml"]⟩], []⟩,
       ⟨["B"], [⟨[], ["config", "b", "items.xml"]⟩], []⟩]
      (by decide) rfl).1,
   (c8_basename_indexing
      [⟨["A"], [⟨[], ["config", "a", "items.xml"]⟩], []⟩,
       ⟨["B"], [⟨[], ["config", "b", "items.xml"]⟩], []⟩]
      "items.xml"
      [⟨["A"], [⟨[], ["config", "a", "items.xml"]⟩], []⟩,
       ⟨["B"], [⟨[], ["config", "b", "items.xml"]⟩], []⟩]
      (by decide) rfl).2 [] [] ["config", "a"] ["config", "b"] "items.xml"⟩

/-- Witness for C9: a duplicate `Localization.txt` is header-stripped
and appended; a duplicate `other.txt` is left unchanged. -/
theorem c9_passthrough_merge_witness :
    Modlet.writeFiles ⟨["M2"], [], [["M2", "Config", "Localization.txt"]]⟩ ["out"]
        (fun p => if p = ["out", "Config", "Localization.txt"] then some "Key,en\r\nitemA,A\r\n"
          else if p = ["M2", "Config", "Localization.txt"] then some "Key,en\r\nitemB,B"
          else none)
      = .ok (updateFS
          (fun p => if p = ["out", "Config", "Localization.txt"] then some "Key,en\r\nitemA,A\r\n"
            else if p = ["M2", "Config", "Localization.txt"] then some "Key,en\r\nitemB,B"
            else none)
          ["out", "Config", "Localization.txt"]
          ("Key,en\r\nitemA,A\r\n" ++ localizationTail "Key,en\r\nitemB,B"))
    ∧ Modlet.writeFiles ⟨["M2"], [], [["M2", "Config", "other.txt"]]⟩ ["out"]
        (fun p => if p = ["out", "Config", "other.txt"] then some "AAA"
          else if p = ["M2", "Config", "other.txt"] then some "BBB" else none)
      = .ok (fun p => if p = ["out", "Config", "other.txt"] then some "AAA"
          else if p = ["M2", "Config", "other.txt"] then some "BBB" else none) :=
  ⟨(c9_passthrough_merge ⟨["M2"], [], [["M2", "Config", "Localization.txt"]]⟩ ["out"]
      ["Config", "Localization.txt"]
      (fun p => if p = ["out", "Config", "Localization.txt"] then some "Key,en\r\nitemA,A\r\n"
        else if p = ["M2", "Config", "Localization.txt"] then some "Key,en\r\nitemB,B"
        else none)
      "Key,en\r\nitemB,B" "Key,en\r\nitemA,A\r\n"
      rfl rfl rfl).1 (by decide),
   (c9_passthrough_merge ⟨["M2"], [], [["M2", "Config", "other.txt"]]⟩ ["out"]
      ["Config", "other.txt"]
      (fun p => if p = ["out", "Config", "other.txt"] then some "AAA"
        else if p = ["M2", "Config", "other.txt"] then some "BBB" else none)
      "BBB" "AAA"
      rfl rfl rfl).2 (by decide)⟩

end SevenDMT
